import Mathlib

/-!
# Slide loader (`script.js`)

A shallow embedding of the three functions of `script.js`:

* `createSlideShow(url)`, which calls `remark.create({sourceUrl: url})`;
* `getSlide(key)`, which searches `window.location.search` with the pattern
  `key + "=([^&#=]*)"` and percent-decodes the captured group;
* the `window.onload` handler, which composes the two.

ECMAScript strings are sequences of UTF-16 code units, modelled as lists of
natural numbers.  The two builtins the script relies on, `decodeURIComponent`
and `RegExp`, are modelled after ECMA-262.  `getSlide` is given twice: as a
function of the key and the query string, and as a run over a page that holds
the mutable `RegExp` objects; `getSlideRun_fst` shows that the two agree.
-/

namespace SlideLoader

/-! ## Strings -/

/-- An ECMAScript string: its UTF-16 code units. -/
abbrev JSString := List Nat

/-- ECMA-262 `UTF16EncodeCodePoint`: one code unit for the basic plane, a
surrogate pair above it. -/
def utf16EncodeCodePoint (v : Nat) : JSString :=
  if v ≤ 0xFFFF then [v]
  else [(v - 0x10000) / 0x400 + 0xD800, (v - 0x10000) % 0x400 + 0xDC00]

/-- The ECMAScript string written by a literal. -/
def js (s : String) : JSString :=
  s.toList.flatMap (fun c => utf16EncodeCodePoint c.toNat)

/-- The exceptions the script can meet. `outsideFragment` is not an ECMAScript
exception: it marks a pattern that the concrete pattern model below does not
cover (a key holding pattern syntax characters). -/
inductive JSError where
  | uriError
  | syntaxError
  | outsideFragment
  deriving DecidableEq, Repr

/-! ## `decodeURIComponent` (ECMA-262, abstract operation `Decode`) -/

/-- Value of one hexadecimal digit code unit. -/
def hexDigit (c : Nat) : Option Nat :=
  if 48 ≤ c ∧ c ≤ 57 then some (c - 48)
  else if 65 ≤ c ∧ c ≤ 70 then some (c - 55)
  else if 97 ≤ c ∧ c ≤ 102 then some (c - 87)
  else none

/-- ECMA-262 `ParseHexOctet` on the two code units after a percent sign. -/
def parseHexOctet (a b : Nat) : Option Nat :=
  match hexDigit a, hexDigit b with
  | some x, some y => some (16 * x + y)
  | _, _ => none

/-- Number of leading 1 bits of an octet (5 stands for "more than four"). -/
def leadingOnes (b : Nat) : Nat :=
  if b < 0x80 then 0
  else if b < 0xC0 then 1
  else if b < 0xE0 then 2
  else if b < 0xF0 then 3
  else if b < 0xF8 then 4
  else 5

/-- Reads `n` further escapes `%XX` (the continuation octets of a multi-octet
sequence); gives the octets and the rest of the string, or `none` when the
string is too short, a percent sign is missing or a digit is not hexadecimal. -/
def readContinuation : Nat → JSString → Option (List Nat × JSString)
  | 0, s => some ([], s)
  | n + 1, p :: a :: b :: s =>
    if p = 0x25 then
      match parseHexOctet a b with
      | some o =>
        match readContinuation n s with
        | some (os, s') => some (o :: os, s')
        | none => none
      | none => none
    else none
  | _ + 1, _ => none

/-- The code point of a well-formed UTF-8 sequence of two to four octets
(continuation octets in `80..BF`, no overlong form, no surrogate, at most
`10FFFF`); `none` for anything else. -/
def utf8CodePoint (octets : List Nat) : Option Nat :=
  let cont (o : Nat) : Bool := 0x80 ≤ o && o ≤ 0xBF
  match octets with
  | [b0, b1] =>
    let v := (b0 - 0xC0) * 0x40 + (b1 - 0x80)
    if cont b1 && 0x80 ≤ v then some v else none
  | [b0, b1, b2] =>
    let v := (b0 - 0xE0) * 0x1000 + (b1 - 0x80) * 0x40 + (b2 - 0x80)
    if cont b1 && cont b2 && 0x800 ≤ v && !(0xD800 ≤ v && v ≤ 0xDFFF) then some v else none
  | [b0, b1, b2, b3] =>
    let v := (b0 - 0xF0) * 0x40000 + (b1 - 0x80) * 0x1000 + (b2 - 0x80) * 0x40 + (b3 - 0x80)
    if cont b1 && cont b2 && cont b3 && 0x10000 ≤ v && v ≤ 0x10FFFF then some v else none
  | _ => none

/-- The loop of `Decode` with an empty preserved set, on the part of the
string still to read. The first argument bounds the number of iterations; each
iteration consumes at least one code unit, so the length of the string plus
one is always enough (`decodeLoop_fuel`). -/
def decodeLoop : Nat → JSString → Except JSError JSString
  | 0, _ => .error .uriError
  | _ + 1, [] => .ok []
  | fuel + 1, c :: rest =>
    if c = 0x25 then
      match rest with
      | a :: b :: rest1 =>
        match parseHexOctet a b with
        | none => .error .uriError
        | some o =>
          let n := leadingOnes o
          if n = 0 then
            match decodeLoop fuel rest1 with
            | .ok r => .ok (o :: r)
            | .error e => .error e
          else if n = 1 ∨ n > 4 then .error .uriError
          else
            match readContinuation (n - 1) rest1 with
            | none => .error .uriError
            | some (os, rest2) =>
              match utf8CodePoint (o :: os) with
              | none => .error .uriError
              | some v =>
                match decodeLoop fuel rest2 with
                | .ok r => .ok (utf16EncodeCodePoint v ++ r)
                | .error e => .error e
      | _ => .error .uriError
    else
      match decodeLoop fuel rest with
      | .ok r => .ok (c :: r)
      | .error e => .error e

/-- The builtin `decodeURIComponent`: the decoded string, or `URIError`. -/
def decodeURIComponent (s : JSString) : Except JSError JSString :=
  decodeLoop (s.length + 1) s

/-! ## `RegExp` -/

/-- The array `exec` returns on a match: the matched text, then one entry per
capturing group (`none` for a group that took no part in the match). -/
abbrev MatchArray := List (Option JSString)

/-- The builtin `RegExp` as the script uses it: `new RegExp(pattern)` throws or
gives an object whose `exec`, with no flags set, is a function of the subject
that returns `null` (`none`) or a match array. -/
abbrev RegExpEngine := JSString → Except JSError (JSString → Option MatchArray)

/-- The patterns `getSlide` builds from a key without pattern syntax
characters: literal code units followed by one capturing group around a
starred negated class, `literal([^excluded]*)`. -/
structure RegExp where
  literal : JSString
  excluded : JSString
  deriving DecidableEq, Repr

/-- ECMA-262 `SyntaxCharacter`, one of `^ $ \ . * + ? ( ) [ ] { } |`. -/
def isSyntaxCharacter (c : Nat) : Bool :=
  c ∈ [94, 36, 92, 46, 42, 43, 63, 40, 41, 91, 93, 123, 125, 124]

/-- Reads a pattern of the shape `literal([^excluded]*)`. -/
def RegExp.parse (pattern : JSString) : Option RegExp :=
  let literal := pattern.takeWhile (fun c => !isSyntaxCharacter c)
  match pattern.drop literal.length with
  | 40 :: 91 :: 94 :: rest =>
    let excluded := rest.takeWhile (fun c => !isSyntaxCharacter c && c != 45)
    if rest.drop excluded.length = [93, 42, 41] then some ⟨literal, excluded⟩ else none
  | _ => none

/-- An attempt to match at the start of `s`: the literal must be a prefix of
`s`; the greedy star then takes the longest run of code units outside the
excluded set, and nothing follows the group, so the attempt never backtracks. -/
def RegExp.matchAt (re : RegExp) (s : JSString) : Option MatchArray :=
  if re.literal.isPrefixOf s then
    let capture := (s.drop re.literal.length).takeWhile (fun c => !re.excluded.contains c)
    some [some (re.literal ++ capture), some capture]
  else none

/-- `RegExp.prototype.exec` with no flags: the match attempts run from index 0
to the length of the subject and the first success is returned. -/
def RegExp.exec (re : RegExp) : JSString → Option MatchArray
  | [] => re.matchAt []
  | c :: cs =>
    match re.matchAt (c :: cs) with
    | some m => some m
    | none => re.exec cs

/-- `new RegExp(pattern)` on the modelled fragment. -/
def RegExp.create : RegExpEngine := fun pattern =>
  match RegExp.parse pattern with
  | some re => .ok re.exec
  | none => .error .outsideFragment

/-! ## The script -/

/-- A call that leaves the script. -/
inductive ExternCall where
  | remarkCreate (sourceUrl : JSString)
  deriving DecidableEq, Repr

/-- `createSlideShow(url)`: one call of `remark.create` with `url` as the
`sourceUrl` option, appended to the calls made so far. -/
def createSlideShow (url : JSString) (calls : List ExternCall) : List ExternCall :=
  calls ++ [ExternCall.remarkCreate url]

/-- ECMA-262 `ToBoolean` on a value that is a string or `undefined`. -/
def toBoolean : Option JSString → Bool
  | none => false
  | some s => !s.isEmpty

/-- The function `getSlide(key)` over a given `RegExp` builtin; `search` is
`window.location.search`. -/
def getSlideWith (engine : RegExpEngine) (key search : JSString) : Except JSError JSString :=
  match engine (key ++ js "=([^&#=]*)") with
  | .error e => .error e
  | .ok exec =>
    match exec search with
    | none => .ok (js "monoids")
    | some result =>
      match result[1]?.join with
      | none => .ok (js "monoids")
      | some r1 =>
        if toBoolean (some r1) then
          match decodeURIComponent r1 with
          | .error e => .error e
          | .ok d => if toBoolean (some d) then decodeURIComponent r1 else .ok (js "monoids")
        else .ok (js "monoids")

/-- The function `getSlide(key)`. -/
def getSlide (key search : JSString) : Except JSError JSString :=
  getSlideWith RegExp.create key search

/-- The handler `window.onload`: the calls made by one run, or the exception
that leaves `getSlide`. -/
def onload (search : JSString) (calls : List ExternCall) : Except JSError (List ExternCall) :=
  match getSlide (js "slide") search with
  | .error e => .error e
  | .ok v => .ok (createSlideShow (js "slides/" ++ v ++ js ".md") calls)

/-! ## Definitions used to state the properties -/

/-- The variant of `getSlide` whose condition is only `result && result[1]`. -/
def getSlideTwoConjunctsWith (engine : RegExpEngine) (key search : JSString) :
    Except JSError JSString :=
  match engine (key ++ js "=([^&#=]*)") with
  | .error e => .error e
  | .ok exec =>
    match exec search with
    | none => .ok (js "monoids")
    | some result =>
      match result[1]?.join with
      | none => .ok (js "monoids")
      | some r1 =>
        if toBoolean (some r1) then decodeURIComponent r1 else .ok (js "monoids")

/-- The two-conjunct variant over the concrete pattern model. -/
def getSlideTwoConjuncts (key search : JSString) : Except JSError JSString :=
  getSlideTwoConjunctsWith RegExp.create key search

/-! ### The script over a page with mutable `RegExp` objects

`RegExp` objects carry state: the flags `g` and `y` make `exec` start at the
`lastIndex` of the object and write it back. The definitions below run
`getSlide` over a page that holds every `RegExp` object allocated so far, with
ECMA-262 `RegExpBuiltinExec` reading and writing the object. -/

/-- The `[[RegExpMatcher]]` of a compiled pattern: on a subject and a start
index, failure or the end index of the match with the captures of the groups. -/
abbrev Matcher := JSString → Nat → Option (Nat × List (Option JSString))

/-- Pattern compilation: `SyntaxError` or the matcher of the pattern. -/
abbrev Compiler := JSString → Except JSError Matcher

/-- A `RegExp` object: its matcher, the flags `g` and `y`, and `lastIndex`. -/
structure RegExpObject where
  matcher : Matcher
  global : Bool
  sticky : Bool
  lastIndex : Nat

/-- The state a call of `getSlide` runs in: `window.location.search` and the
`RegExp` objects allocated so far (a reference is an index into the heap). -/
structure Page where
  locationSearch : JSString
  heap : List RegExpObject

/-- `new RegExp(pattern)` with no flags argument: a compilation error is
thrown; otherwise a new object with both flags off and `lastIndex` 0 is
allocated and its reference returned. -/
def regExpCreate (compile : Compiler) (pattern : JSString) (st : Page) :
    Except JSError Nat × Page :=
  match compile pattern with
  | .error e => (.error e, st)
  | .ok m => (.ok st.heap.length, { st with heap := st.heap ++ [⟨m, false, false, 0⟩] })

/-- The loop of `RegExpBuiltinExec`: the matcher is tried at `lastIndex`, then,
unless the object is sticky, at the following indices. The first argument
counts the indices from `lastIndex` to the length of the subject, so 0 means
that `lastIndex` is past the end. Gives the index of the match, its end index
and the captures. -/
def matchLoop (m : Matcher) (subject : JSString) (sticky : Bool) :
    Nat → Nat → Option (Nat × Nat × List (Option JSString))
  | 0, _ => none
  | n + 1, lastIndex =>
    match m subject lastIndex with
    | some (e, captures) => some (lastIndex, e, captures)
    | none => if sticky then none else matchLoop m subject sticky n (lastIndex + 1)

/-- The array built for a match from index `i` to end index `e`. -/
def matchArray (subject : JSString) (i e : Nat) (captures : List (Option JSString)) :
    MatchArray :=
  some ((subject.drop i).take (e - i)) :: captures

/-- ECMA-262 `RegExpBuiltinExec`: the result (`null` or a match array) and the
object afterwards. The search starts at `lastIndex`, taken as 0 when neither
flag is set; with a flag set, `lastIndex` is written back. -/
def regExpBuiltinExec (r : RegExpObject) (subject : JSString) :
    Option MatchArray × RegExpObject :=
  let lastIndex := if !r.global && !r.sticky then 0 else r.lastIndex
  match matchLoop r.matcher subject r.sticky (subject.length + 1 - lastIndex) lastIndex with
  | none => (none, if r.global || r.sticky then { r with lastIndex := 0 } else r)
  | some (i, e, captures) =>
    (some (matchArray subject i e captures),
      if r.global || r.sticky then { r with lastIndex := e } else r)

/-- The call `regex.exec(subject)` through a reference: the object is read from
the heap and written back. A reference that was never allocated gives `null`;
`getSlide` only uses the reference `new RegExp` has just returned. -/
def execOn (regex : Nat) (subject : JSString) (st : Page) : Option MatchArray × Page :=
  match st.heap[regex]? with
  | none => (none, st)
  | some r =>
    ((regExpBuiltinExec r subject).1,
      { st with heap := st.heap.set regex (regExpBuiltinExec r subject).2 })

/-- One call `getSlide(key)` on a page: its completion and the page it leaves
behind. -/
def getSlideRun (compile : Compiler) (key : JSString) (st : Page) :
    Except JSError JSString × Page :=
  match regExpCreate compile (key ++ js "=([^&#=]*)") st with
  | (.error e, st1) => (.error e, st1)
  | (.ok regex, st1) =>
    match execOn regex st1.locationSearch st1 with
    | (none, st2) => (.ok (js "monoids"), st2)
    | (some result, st2) =>
      match result[1]?.join with
      | none => (.ok (js "monoids"), st2)
      | some r1 =>
        if toBoolean (some r1) then
          match decodeURIComponent r1 with
          | .error e => (.error e, st2)
          | .ok d =>
            if toBoolean (some d) then (decodeURIComponent r1, st2)
            else (.ok (js "monoids"), st2)
        else (.ok (js "monoids"), st2)

/-- The `RegExp` builtin seen from `getSlide`: what `exec` returns on an object
that `new RegExp(pattern)` has just made. -/
def engineOf (compile : Compiler) : RegExpEngine := fun pattern =>
  match compile pattern with
  | .error e => .error e
  | .ok m => .ok (fun subject => (regExpBuiltinExec ⟨m, false, false, 0⟩ subject).1)

/-- The matcher of a pattern `literal([^excluded]*)`: at index `i` the literal
must follow; the group takes the longest run outside the excluded set. -/
def RegExp.matcher (re : RegExp) : Matcher := fun subject i =>
  if re.literal.isPrefixOf (subject.drop i) then
    let capture :=
      ((subject.drop i).drop re.literal.length).takeWhile (fun c => !re.excluded.contains c)
    some (i + re.literal.length + capture.length, [some capture])
  else none

/-- Pattern compilation on the modelled fragment. -/
def RegExp.compile : Compiler := fun pattern =>
  match RegExp.parse pattern with
  | some re => .ok re.matcher
  | none => .error .outsideFragment

/-- Splits a string at every occurrence of one code unit. -/
def splitAt (sep : Nat) : JSString → List JSString
  | [] => [[]]
  | c :: cs =>
    if c = sep then [] :: splitAt sep cs
    else
      match splitAt sep cs with
      | [] => [[c]]
      | p :: ps => (c :: p) :: ps

/-- The names of the `&`-separated `name=value` pairs of a query string, read
after its leading `?`. -/
def queryPairNames (q : JSString) : List JSString :=
  let body := match q with
    | 63 :: rest => rest
    | other => other
  (splitAt 38 body).map (fun pair => pair.takeWhile (fun c => c != 61))

/-- The query string has no parameter of the given name. -/
def LacksParameter (name q : JSString) : Prop :=
  name ∉ queryPairNames q

/-- The run captured after the first occurrence of `slide=` in `q`: no
`slide=` starts further left, the run holds none of `&`, `#`, `=`, and it is
followed by the end of the string or by one of these three. -/
def FirstCapture (q run : JSString) : Prop :=
  ∃ pre rest, q = pre ++ js "slide=" ++ run ++ rest ∧
    (∀ a b, a ++ js "slide=" ++ b = q → pre.length ≤ a.length) ∧
    (∀ c ∈ run, c ∉ js "&#=") ∧
    (rest = [] ∨ ∃ c rest1, rest = c :: rest1 ∧ c ∈ js "&#=")

/-- What `getSlide` does with a matched `result[1]`: the second and third
conjunct of its condition and the two branches. -/
def captureValue (r1 : JSString) : Except JSError JSString :=
  if toBoolean (some r1) then
    match decodeURIComponent r1 with
    | .error e => .error e
    | .ok d => if toBoolean (some d) then decodeURIComponent r1 else .ok (js "monoids")
  else .ok (js "monoids")

/-- The directory level reached by walking the directory segments of a
relative path from the directory of the page: `..` climbs one level, `.` and
an empty segment stay, any other segment descends. A negative level lies above
the directory of the page. -/
def directoryLevel (dirs : List JSString) : Int :=
  dirs.foldl (fun d s => if s = js ".." then d - 1 else if s = js "." ∨ s = [] then d else d + 1) 0

/-! ## The decoder -/

theorem utf16EncodeCodePoint_ne_nil (v : Nat) : utf16EncodeCodePoint v ≠ [] := by
  unfold utf16EncodeCodePoint
  split <;> simp

theorem readContinuation_length :
    ∀ (n : Nat) (s : JSString) (os : List Nat) (s1 : JSString),
      readContinuation n s = some (os, s1) → s1.length ≤ s.length := by
  intro n
  induction n with
  | zero =>
    intro s os s1 h
    simp [readContinuation] at h
    rw [h.2]
  | succ n ih =>
    intro s os s1 h
    match s, h with
    | p :: a :: b :: t, h =>
      simp only [readContinuation] at h
      split at h
      · split at h
        · split at h
          · rename_i os1 t1 hrec
            have := ih t os1 t1 hrec
            simp only [Option.some.injEq, Prod.mk.injEq] at h
            rw [← h.2]
            simp only [List.length_cons]
            omega
          · exact absurd h (by simp)
        · exact absurd h (by simp)
      · exact absurd h (by simp)
    | [], h => simp [readContinuation] at h
    | [_], h => simp [readContinuation] at h
    | [_, _], h => simp [readContinuation] at h

/-- Any two bounds above the length of the string give the same result: the
bound of `decodeURIComponent` is never the reason for its outcome. -/
theorem decodeLoop_fuel :
    ∀ (n m : Nat) (s : JSString), s.length < n → s.length < m →
      decodeLoop n s = decodeLoop m s := by
  intro n
  induction n with
  | zero => intro m s h; omega
  | succ n ih =>
    intro m s hn hm
    cases m with
    | zero => omega
    | succ m =>
      cases s with
      | nil => simp [decodeLoop]
      | cons c rest =>
        simp only [List.length_cons] at hn hm
        by_cases hc : c = 0x25
        · match rest, hn, hm with
          | [], _, _ => simp [decodeLoop, hc]
          | [_], _, _ => simp [decodeLoop, hc]
          | a :: b :: rest1, hn, hm =>
            simp only [List.length_cons] at hn hm
            simp only [decodeLoop, hc, if_true]
            cases ho : parseHexOctet a b with
            | none => rfl
            | some o =>
              simp only
              by_cases h0 : leadingOnes o = 0
              · simp only [h0, if_true]
                rw [ih m rest1 (by omega) (by omega)]
              · simp only [h0, if_false]
                by_cases h1 : leadingOnes o = 1 ∨ leadingOnes o > 4
                · simp only [h1, if_true]
                · simp only [h1, if_false]
                  cases hr : readContinuation (leadingOnes o - 1) rest1 with
                  | none => rfl
                  | some pr =>
                    obtain ⟨os, rest2⟩ := pr
                    have hl := readContinuation_length _ _ _ _ hr
                    simp only
                    cases hv : utf8CodePoint (o :: os) with
                    | none => rfl
                    | some v =>
                      simp only
                      rw [ih m rest2 (by omega) (by omega)]
        · simp only [decodeLoop, hc, if_false]
          rw [ih m rest (by omega) (by omega)]

/-- A successful decoding of a non-empty string is non-empty. -/
theorem decodeLoop_ne_nil (n : Nat) (s d : JSString) (hs : s ≠ [])
    (h : decodeLoop n s = .ok d) : d ≠ [] := by
  cases n with
  | zero => simp [decodeLoop] at h
  | succ n =>
    cases s with
    | nil => exact absurd rfl hs
    | cons c rest =>
      by_cases hc : c = 0x25
      · match rest, h with
        | [], h => simp [decodeLoop, hc] at h
        | [_], h => simp [decodeLoop, hc] at h
        | a :: b :: rest1, h =>
          simp only [decodeLoop, hc, if_true] at h
          cases ho : parseHexOctet a b with
          | none => simp [ho] at h
          | some o =>
            simp only [ho] at h
            by_cases h0 : leadingOnes o = 0
            · simp only [h0, if_true] at h
              cases hr : decodeLoop n rest1 with
              | error e => simp [hr] at h
              | ok r =>
                simp only [hr, Except.ok.injEq] at h
                rw [← h]; simp
            · simp only [h0, if_false] at h
              by_cases h1 : leadingOnes o = 1 ∨ leadingOnes o > 4
              · simp [h1] at h
              · simp only [h1, if_false] at h
                cases hr : readContinuation (leadingOnes o - 1) rest1 with
                | none => simp [hr] at h
                | some pr =>
                  obtain ⟨os, rest2⟩ := pr
                  simp only [hr] at h
                  cases hv : utf8CodePoint (o :: os) with
                  | none => simp [hv] at h
                  | some v =>
                    simp only [hv] at h
                    cases hd : decodeLoop n rest2 with
                    | error e => simp [hd] at h
                    | ok r =>
                      simp only [hd, Except.ok.injEq] at h
                      rw [← h]
                      intro hnil
                      exact utf16EncodeCodePoint_ne_nil v (List.append_eq_nil.mp hnil).1
      · simp only [decodeLoop, hc, if_false] at h
        cases hr : decodeLoop n rest with
        | error e => simp [hr] at h
        | ok r =>
          simp only [hr, Except.ok.injEq] at h
          rw [← h]; simp

theorem decodeURIComponent_ne_nil (s d : JSString) (hs : s ≠ [])
    (h : decodeURIComponent s = .ok d) : d ≠ [] :=
  decodeLoop_ne_nil _ s d hs h

/-- The decoder only throws `URIError`. -/
theorem decodeLoop_error (n : Nat) :
    ∀ (s : JSString) (e : JSError), decodeLoop n s = .error e → e = .uriError := by
  induction n with
  | zero => intro s e h; simp [decodeLoop] at h; exact h.symm
  | succ n ih =>
    intro s e h
    cases s with
    | nil => simp [decodeLoop] at h
    | cons c rest =>
      by_cases hc : c = 0x25
      · match rest, h with
        | [], h => simp [decodeLoop, hc] at h; exact h.symm
        | [_], h => simp [decodeLoop, hc] at h; exact h.symm
        | a :: b :: rest1, h =>
          simp only [decodeLoop, hc, if_true] at h
          cases ho : parseHexOctet a b with
          | none => simp [ho] at h; exact h.symm
          | some o =>
            simp only [ho] at h
            by_cases h0 : leadingOnes o = 0
            · simp only [h0, if_true] at h
              cases hr : decodeLoop n rest1 with
              | error e1 =>
                simp only [hr, Except.error.injEq] at h
                rw [← h]; exact ih _ _ hr
              | ok r => simp [hr] at h
            · simp only [h0, if_false] at h
              by_cases h1 : leadingOnes o = 1 ∨ leadingOnes o > 4
              · simp [h1] at h; exact h.symm
              · simp only [h1, if_false] at h
                cases hr : readContinuation (leadingOnes o - 1) rest1 with
                | none => simp [hr] at h; exact h.symm
                | some pr =>
                  obtain ⟨os, rest2⟩ := pr
                  simp only [hr] at h
                  cases hv : utf8CodePoint (o :: os) with
                  | none => simp [hv] at h; exact h.symm
                  | some v =>
                    simp only [hv] at h
                    cases hd : decodeLoop n rest2 with
                    | error e1 =>
                      simp only [hd, Except.error.injEq] at h
                      rw [← h]; exact ih _ _ hd
                    | ok r => simp [hd] at h
      · simp only [decodeLoop, hc, if_false] at h
        cases hr : decodeLoop n rest with
        | error e1 =>
          simp only [hr, Except.error.injEq] at h
          rw [← h]; exact ih _ _ hr
        | ok r => simp [hr] at h

theorem decodeURIComponent_error (s : JSString) (e : JSError)
    (h : decodeURIComponent s = .error e) : e = .uriError :=
  decodeLoop_error _ s e h

/-! ## The pattern search -/

theorem matchAt_eq_none (re : RegExp) (s : JSString) (h : ¬ re.literal <+: s) :
    re.matchAt s = none := by
  unfold RegExp.matchAt
  rw [if_neg]
  intro hp
  exact h (List.isPrefixOf_iff_prefix.mp hp)

theorem matchAt_append (re : RegExp) (tail : JSString) :
    re.matchAt (re.literal ++ tail) =
      some [some (re.literal ++ tail.takeWhile (fun c => !re.excluded.contains c)),
        some (tail.takeWhile (fun c => !re.excluded.contains c))] := by
  unfold RegExp.matchAt
  rw [if_pos (List.isPrefixOf_iff_prefix.mpr (List.prefix_append _ _))]
  simp

theorem exec_of_matchAt (re : RegExp) (s : JSString) (m : MatchArray)
    (h : re.matchAt s = some m) : re.exec s = some m := by
  cases s with
  | nil => simpa [RegExp.exec] using h
  | cons c cs => simp [RegExp.exec, h]

/-- The search returns the attempt at the first occurrence of the literal. -/
theorem exec_first (re : RegExp) :
    ∀ (pre tail : JSString),
      (∀ a b, a ++ re.literal ++ b = pre ++ re.literal ++ tail → pre.length ≤ a.length) →
      re.exec (pre ++ re.literal ++ tail) = re.matchAt (re.literal ++ tail) := by
  intro pre
  induction pre with
  | nil =>
    intro tail _
    rw [List.nil_append, matchAt_append]
    exact exec_of_matchAt re _ _ (matchAt_append re tail)
  | cons c pre ih =>
    intro tail hfirst
    have hno : ¬ re.literal <+: c :: (pre ++ re.literal ++ tail) := by
      rintro ⟨b, hb⟩
      have := hfirst [] b (by simpa using hb)
      simp at this
    have hrec := ih tail (fun a b hab => by
      have := hfirst (c :: a) b (by simp [← hab])
      simpa using this)
    show re.exec (c :: (pre ++ re.literal ++ tail)) = _
    rw [RegExp.exec, matchAt_eq_none re _ hno]
    exact hrec

/-- Without an occurrence of the literal the search returns `null`. -/
theorem exec_none (re : RegExp) :
    ∀ (q : JSString), ¬ re.literal <:+: q → re.exec q = none := by
  intro q
  induction q with
  | nil =>
    intro h
    rw [RegExp.exec]
    exact matchAt_eq_none re _ (fun hp => h hp.isInfix)
  | cons c cs ih =>
    intro h
    rw [RegExp.exec, matchAt_eq_none re _ (fun hp => h hp.isInfix)]
    exact ih (fun hi => h (List.infix_cons hi))

/-- An occurrence of the literal gives a first one. -/
theorem exists_first (lit : JSString) :
    ∀ (q : JSString), lit <:+: q →
      ∃ pre tail, q = pre ++ lit ++ tail ∧
        ∀ a b, a ++ lit ++ b = q → pre.length ≤ a.length := by
  intro q
  induction q with
  | nil =>
    intro h
    have hl : lit = [] := List.infix_nil.mp h
    exact ⟨[], [], by simp [hl], fun a b _ => by simp⟩
  | cons c cs ih =>
    intro h
    by_cases hp : lit <+: c :: cs
    · obtain ⟨t, ht⟩ := hp
      exact ⟨[], t, by simp [ht], fun a b _ => by simp⟩
    · have hi : lit <:+: cs := by
        rcases List.infix_cons_iff.mp h with h1 | h1
        · exact absurd h1 hp
        · exact h1
      obtain ⟨pre, tail, hq, hfirst⟩ := ih hi
      refine ⟨c :: pre, tail, by simp [hq], ?_⟩
      intro a b hab
      cases a with
      | nil =>
        exact absurd ⟨b, by simpa using hab⟩ hp
      | cons x a =>
        simp only [List.cons_append, List.cons.injEq] at hab
        have := hfirst a b hab.2
        simp only [List.length_cons]
        omega

/-- The two ways to say that no occurrence starts left of `pre`. -/
theorem first_of_drop (lit pre q : JSString)
    (h : ∀ i, i < pre.length → ¬ lit <+: q.drop i) :
    ∀ a b, a ++ lit ++ b = q → pre.length ≤ a.length := by
  intro a b hab
  by_contra hlt
  have hlt1 : a.length < pre.length := by omega
  apply h a.length hlt1
  rw [← hab, List.append_assoc, List.drop_left]
  exact List.prefix_append _ _

theorem takeWhile_run (p : Nat → Bool) (run rest : JSString)
    (hrun : ∀ c ∈ run, p c = true)
    (hrest : rest = [] ∨ ∃ c rest1, rest = c :: rest1 ∧ p c = false) :
    (run ++ rest).takeWhile p = run := by
  induction run with
  | nil =>
    rcases hrest with h | ⟨c, r, h, hc⟩
    · simp [h]
    · simp [h, List.takeWhile, hc]
  | cons x xs ih =>
    have hx : p x = true := hrun x (List.mem_cons_self _ _)
    have hxs := ih (fun c hc => hrun c (List.mem_cons_of_mem _ hc))
    rw [List.cons_append, List.takeWhile_cons, if_pos hx, hxs]

theorem takeWhile_dropWhile (p : Nat → Bool) (tail : JSString) :
    (∀ c ∈ tail.takeWhile p, p c = true) ∧
    (tail.dropWhile p = [] ∨ ∃ c rest1, tail.dropWhile p = c :: rest1 ∧ p c = false) := by
  constructor
  · intro c hc
    exact List.mem_takeWhile_imp hc
  · cases h : tail.dropWhile p with
    | nil => exact Or.inl rfl
    | cons c r =>
      refine Or.inr ⟨c, r, rfl, ?_⟩
      have := List.head_dropWhile_not p tail (by simp [h])
      simpa [h] using this

theorem not_excluded_iff (c : Nat) :
    (!(js "&#=").contains c) = true ↔ c ∉ js "&#=" := by
  simp [List.elem_eq_mem]

/-! ## `getSlide` on the key `slide` -/

theorem create_slide :
    RegExp.create (js "slide" ++ js "=([^&#=]*)") =
      .ok (RegExp.exec ⟨js "slide=", js "&#="⟩) := rfl

/-- With a first occurrence of `slide=`, the result is decided by the run that
follows it. -/
theorem getSlide_first (pre tail : JSString)
    (hfirst : ∀ a b, a ++ js "slide=" ++ b = pre ++ js "slide=" ++ tail →
      pre.length ≤ a.length) :
    getSlide (js "slide") (pre ++ js "slide=" ++ tail) =
      captureValue (tail.takeWhile (fun c => !(js "&#=").contains c)) := by
  have hexec := exec_first ⟨js "slide=", js "&#="⟩ pre tail hfirst
  rw [matchAt_append] at hexec
  unfold getSlide getSlideWith
  rw [create_slide]
  simp only [hexec]
  rfl

theorem getSlide_absent (q : JSString) (h : ¬ js "slide=" <:+: q) :
    getSlide (js "slide") q = .ok (js "monoids") := by
  have hexec := exec_none ⟨js "slide=", js "&#="⟩ q h
  unfold getSlide getSlideWith
  rw [create_slide]
  simp only [hexec]

theorem captureValue_nil : captureValue [] = .ok (js "monoids") := rfl

theorem captureValue_ok (r d : JSString) (hr : r ≠ [])
    (hd : decodeURIComponent r = .ok d) : captureValue r = .ok d := by
  have hd1 : d ≠ [] := decodeURIComponent_ne_nil r d hr hd
  unfold captureValue
  simp [toBoolean, hr, hd, hd1]

theorem captureValue_error (r : JSString) (e : JSError)
    (hd : decodeURIComponent r = .error e) : captureValue r = .error e := by
  have hr : r ≠ [] := by
    rintro rfl
    exact absurd hd (by simp [decodeURIComponent, decodeLoop])
  unfold captureValue
  simp [toBoolean, hr, hd]

theorem getSlide_capture (pre run rest : JSString)
    (hfirst : ∀ a b, a ++ js "slide=" ++ b = pre ++ js "slide=" ++ run ++ rest →
      pre.length ≤ a.length)
    (hfree : ∀ c ∈ run, c ∉ js "&#=")
    (hrest : rest = [] ∨ ∃ c rest1, rest = c :: rest1 ∧ c ∈ js "&#=") :
    getSlide (js "slide") (pre ++ js "slide=" ++ run ++ rest) = captureValue run := by
  have hq : pre ++ js "slide=" ++ run ++ rest = pre ++ js "slide=" ++ (run ++ rest) := by
    simp [List.append_assoc]
  rw [hq, getSlide_first pre (run ++ rest) (by rw [← hq]; exact hfirst)]
  congr 1
  apply takeWhile_run
  · intro c hc
    exact (not_excluded_iff c).mpr (hfree c hc)
  · rcases hrest with h | ⟨c, r, h, hc⟩
    · exact Or.inl h
    · refine Or.inr ⟨c, r, h, ?_⟩
      have := (not_excluded_iff c).not.mpr (not_not.mpr hc)
      simpa using this

/-- Every query string with an occurrence of `slide=` has a first capture, and
`getSlide` is decided by it. -/
theorem exists_firstCapture (q : JSString) (h : js "slide=" <:+: q) :
    ∃ run, FirstCapture q run ∧ getSlide (js "slide") q = captureValue run := by
  obtain ⟨pre, tail, hq, hfirst⟩ := exists_first (js "slide=") q h
  obtain ⟨hfree, hrest⟩ := takeWhile_dropWhile (fun c => !(js "&#=").contains c) tail
  have htail := List.takeWhile_append_dropWhile (fun c => !(js "&#=").contains c) tail
  refine ⟨tail.takeWhile (fun c => !(js "&#=").contains c), ⟨pre,
    tail.dropWhile (fun c => !(js "&#=").contains c), ?_, hfirst, ?_, ?_⟩, ?_⟩
  · rw [hq, List.append_assoc (pre ++ js "slide="), htail]
  · intro c hc
    exact (not_excluded_iff c).mp (hfree c hc)
  · rcases hrest with h1 | ⟨c, r, h1, hc⟩
    · exact Or.inl h1
    · refine Or.inr ⟨c, r, h1, ?_⟩
      by_contra hn
      have := (not_excluded_iff c).mpr hn
      rw [hc] at this
      exact absurd this (by simp)
  · rw [hq]
    exact getSlide_first pre tail (by rw [← hq]; exact hfirst)

theorem getSlide_of_firstCapture (q run : JSString) (h : FirstCapture q run) :
    getSlide (js "slide") q = captureValue run := by
  obtain ⟨pre, rest, hq, hfirst, hfree, hrest⟩ := h
  rw [hq]
  exact getSlide_capture pre run rest (by rw [← hq]; exact hfirst) hfree hrest

theorem getSlide_ne_nil (q v : JSString) (h : getSlide (js "slide") q = .ok v) : v ≠ [] := by
  by_cases hin : js "slide=" <:+: q
  · obtain ⟨run, _, hget⟩ := exists_firstCapture q hin
    rw [hget] at h
    by_cases hr : run = []
    · rw [hr, captureValue_nil] at h
      rw [← Except.ok.inj h]
      decide
    · cases hd : decodeURIComponent run with
      | error e =>
        rw [captureValue_error run e hd] at h
        exact absurd h (by simp)
      | ok d =>
        rw [captureValue_ok run d hr hd] at h
        rw [← Except.ok.inj h]
        exact decodeURIComponent_ne_nil run d hr hd
  · rw [getSlide_absent q hin] at h
    rw [← Except.ok.inj h]
    decide

/-- The shape of every match array of the search. -/
theorem exec_capture (re : RegExp) :
    ∀ (q : JSString) (m : MatchArray), re.exec q = some m →
      ∃ tail : JSString, m = [some (re.literal ++ tail.takeWhile (fun c => !re.excluded.contains c)),
        some (tail.takeWhile (fun c => !re.excluded.contains c))] := by
  have hat : ∀ (s : JSString) (m : MatchArray), re.matchAt s = some m →
      ∃ tail : JSString, m = [some (re.literal ++ tail.takeWhile (fun c => !re.excluded.contains c)),
        some (tail.takeWhile (fun c => !re.excluded.contains c))] := by
    intro s m hm
    unfold RegExp.matchAt at hm
    split at hm
    · exact ⟨s.drop re.literal.length, (Option.some.inj hm).symm⟩
    · exact absurd hm (by simp)
  intro q
  induction q with
  | nil =>
    intro m hm
    rw [RegExp.exec] at hm
    exact hat _ m hm
  | cons c cs ih =>
    intro m hm
    rw [RegExp.exec] at hm
    cases hc : re.matchAt (c :: cs) with
    | some m1 =>
      rw [hc] at hm
      simp only [Option.some.injEq] at hm
      rw [← hm]
      exact hat _ m1 hc
    | none =>
      rw [hc] at hm
      exact ih m hm

theorem getSlideWith_eq_twoConjuncts (engine : RegExpEngine) (key search : JSString) :
    getSlideWith engine key search = getSlideTwoConjunctsWith engine key search := by
  unfold getSlideWith getSlideTwoConjunctsWith
  cases engine (key ++ js "=([^&#=]*)") with
  | error e => rfl
  | ok exec =>
    simp only
    cases exec search with
    | none => rfl
    | some result =>
      simp only
      cases result[1]?.join with
      | none => rfl
      | some r1 =>
        simp only
        by_cases hr : r1 = []
        · simp [toBoolean, hr]
        · cases hd : decodeURIComponent r1 with
          | error e => simp [toBoolean, hr]
          | ok d =>
            have hd1 : d ≠ [] := decodeURIComponent_ne_nil r1 d hr hd
            simp [toBoolean, hr, hd1]

/-! ## `getSlide` over mutable `RegExp` objects -/

theorem execOn_fresh (r : RegExpObject) (heap : List RegExpObject) (q subject : JSString) :
    execOn heap.length subject ⟨q, heap ++ [r]⟩ =
      ((regExpBuiltinExec r subject).1,
        ⟨q, (heap ++ [r]).set heap.length (regExpBuiltinExec r subject).2⟩) := by
  unfold execOn
  simp

/-- The completion of a run is that of `getSlideWith` over the builtin seen
from a fresh object, whatever the heap holds. -/
theorem getSlideRun_fst (compile : Compiler) (key q : JSString) (heap : List RegExpObject) :
    (getSlideRun compile key ⟨q, heap⟩).1 = getSlideWith (engineOf compile) key q := by
  unfold getSlideRun regExpCreate getSlideWith engineOf
  cases compile (key ++ js "=([^&#=]*)") with
  | error e => rfl
  | ok m =>
    simp only [execOn_fresh]
    cases (regExpBuiltinExec ⟨m, false, false, 0⟩ q).1 with
    | none => rfl
    | some result =>
      simp only
      cases result[1]?.join with
      | none => rfl
      | some r1 =>
        simp only
        by_cases hb : toBoolean (some r1) = true
        · simp only [hb, if_true]
          cases decodeURIComponent r1 with
          | error e => rfl
          | ok d =>
            simp only
            by_cases hd : toBoolean (some d) = true
            · simp only [hd, if_true]
            · simp only [hd]
              rfl
        · simp only [hb]
          rfl

/-- A run never writes `window.location.search`. -/
theorem getSlideRun_locationSearch (compile : Compiler) (key q : JSString)
    (heap : List RegExpObject) :
    (getSlideRun compile key ⟨q, heap⟩).2.locationSearch = q := by
  unfold getSlideRun regExpCreate
  cases compile (key ++ js "=([^&#=]*)") with
  | error e => rfl
  | ok m =>
    simp only [execOn_fresh]
    cases (regExpBuiltinExec ⟨m, false, false, 0⟩ q).1 with
    | none => rfl
    | some result =>
      simp only
      cases result[1]?.join with
      | none => rfl
      | some r1 =>
        simp only
        by_cases hb : toBoolean (some r1) = true
        · simp only [hb, if_true]
          cases decodeURIComponent r1 with
          | error e => rfl
          | ok d =>
            simp only
            by_cases hd : toBoolean (some d) = true
            · simp only [hd, if_true]
            · simp only [hd]
              rfl
        · simp only [hb]
          rfl

theorem take_length_takeWhile (p : Nat → Bool) (t : JSString) :
    t.take (t.takeWhile p).length = t.takeWhile p := by
  induction t with
  | nil => rfl
  | cons x xs ih =>
    by_cases hx : p x = true
    · simp [List.takeWhile_cons, hx, ih]
    · simp [List.takeWhile_cons, hx]

/-- The matcher of the fragment at index `i` is the attempt `matchAt` on the
subject from `i` on. -/
theorem matcher_matchAt (re : RegExp) (subject : JSString) (i : Nat) :
    (re.matcher subject i).map (fun r => matchArray subject i r.1 r.2) =
      re.matchAt (subject.drop i) := by
  unfold RegExp.matcher RegExp.matchAt
  by_cases hp : re.literal.isPrefixOf (subject.drop i) = true
  · obtain ⟨t, ht⟩ := List.isPrefixOf_iff_prefix.mp hp
    simp only [hp, if_true, Option.map_some', matchArray]
    rw [← ht, List.drop_left]
    have hlen : i + re.literal.length +
        (List.takeWhile (fun c => !re.excluded.contains c) t).length - i =
        re.literal.length + (List.takeWhile (fun c => !re.excluded.contains c) t).length := by
      omega
    rw [hlen, List.take_append, take_length_takeWhile]
  · simp [hp]

theorem matchLoop_exec (re : RegExp) (subject : JSString) :
    ∀ (n i : Nat), i + n = subject.length + 1 →
      (matchLoop re.matcher subject false n i).map
          (fun r => matchArray subject r.1 r.2.1 r.2.2) =
        if i ≤ subject.length then re.exec (subject.drop i) else none := by
  intro n
  induction n with
  | zero =>
    intro i hi
    have : ¬ i ≤ subject.length := by omega
    simp [matchLoop, this]
  | succ n ih =>
    intro i hi
    have hle : i ≤ subject.length := by omega
    have hm := matcher_matchAt re subject i
    rw [if_pos hle]
    by_cases hlt : i < subject.length
    · rw [List.drop_eq_getElem_cons hlt] at hm ⊢
      rw [RegExp.exec]
      cases hr : re.matcher subject i with
      | some r =>
        obtain ⟨e, captures⟩ := r
        rw [hr] at hm
        simp only [Option.map_some'] at hm
        simp only [matchLoop, hr, Option.map_some', ← hm]
      | none =>
        rw [hr] at hm
        simp only [Option.map_none'] at hm
        simp only [matchLoop, hr, ← hm]
        have := ih (i + 1) (by omega)
        rw [if_pos (by omega)] at this
        simpa using this
    · have heq : i = subject.length := by omega
      have hnil : subject.drop i = [] := by rw [heq]; exact List.drop_length subject
      rw [hnil] at hm ⊢
      rw [RegExp.exec]
      cases hr : re.matcher subject i with
      | some r =>
        obtain ⟨e, captures⟩ := r
        rw [hr] at hm
        simp only [Option.map_some'] at hm
        simp only [matchLoop, hr, Option.map_some', ← hm]
      | none =>
        rw [hr] at hm
        simp only [Option.map_none'] at hm
        have hn : n = 0 := by omega
        subst hn
        simp only [matchLoop, hr, ← hm]
        rfl

/-- On the modelled fragment, the builtin seen from a fresh object is the
search `RegExp.exec`. -/
theorem engineOf_compile : engineOf RegExp.compile = RegExp.create := by
  funext pattern
  unfold engineOf RegExp.compile RegExp.create
  cases RegExp.parse pattern with
  | none => rfl
  | some re =>
    simp only
    congr 1
    funext subject
    have h := matchLoop_exec re subject (subject.length + 1) 0 (by omega)
    simp only [Nat.zero_le, if_true, List.drop_zero] at h
    unfold regExpBuiltinExec
    simp only [Bool.not_false, Bool.and_self, if_true, Nat.sub_zero]
    cases hl : matchLoop re.matcher subject false (subject.length + 1) 0 with
    | none =>
      rw [hl] at h
      simpa using h
    | some r =>
      obtain ⟨i, e, captures⟩ := r
      rw [hl] at h
      simpa using h

/-- The state of a `RegExp` object is real in this model: with the flag `g`,
a second `exec` on the same object and the same subject starts where the first
match ended and gives another result. -/
theorem regExpBuiltinExec_global_carries_state :
    (regExpBuiltinExec ⟨RegExp.matcher ⟨js "slide=", js "&#="⟩, true, false, 0⟩
      (js "?slide=a")).1 = some [some (js "slide=a"), some (js "a")] ∧
    (regExpBuiltinExec (regExpBuiltinExec ⟨RegExp.matcher ⟨js "slide=", js "&#="⟩, true, false, 0⟩
      (js "?slide=a")).2 (js "?slide=a")).1 = none ∧
    (regExpBuiltinExec (regExpBuiltinExec ⟨RegExp.matcher ⟨js "slide=", js "&#="⟩, false, false, 0⟩
      (js "?slide=a")).2 (js "?slide=a")).1 = some [some (js "slide=a"), some (js "a")] :=
  ⟨rfl, rfl, rfl⟩

/-! ## Properties of the script -/

/-- C1, as stated: the text `slide=X` with a non-empty, validly encoded `X`
free of `&`, `#`, `=` anywhere in the query string does not make `getSlide`
return the decoding of `X`. In `?slide=a&slide=b` the token `b` is such an
`X`, and `getSlide` returns `a`. -/
theorem getSlide_any_occurrence_fails :
    ¬ ∀ (pre x post d : JSString), x ≠ [] → decodeURIComponent x = .ok d →
      (∀ c ∈ x, c ∉ js "&#=") →
      getSlide (js "slide") (pre ++ js "slide=" ++ x ++ post) = .ok d := by
  intro h
  have hb := h (js "?slide=a&") (js "b") [] (js "b") (by decide) rfl (by decide)
  have ha : getSlide (js "slide") (js "?slide=a&" ++ js "slide=" ++ js "b" ++ []) =
      .ok (js "a") := rfl
  rw [ha] at hb
  exact absurd (Except.ok.inj hb) (by decide)

/-- C1, amended: when the text `slide=X` stands at the leftmost place where
`slide=` can be read in the query string (no index below it starts an
occurrence) and `X`, non-empty, validly encoded and free of `&`, `#`, `=`, is
followed by the end of the string or by one of `&`, `#`, `=`, then `getSlide`
returns the decoding of `X`. -/
theorem getSlide_returns_decoded_value (pre x post d : JSString)
    (hleft : ∀ i, i < pre.length →
      ¬ js "slide=" <+: (pre ++ js "slide=" ++ x ++ post).drop i)
    (hx : x ≠ []) (hd : decodeURIComponent x = .ok d)
    (hfree : ∀ c ∈ x, c ∉ js "&#=")
    (hpost : post = [] ∨ ∃ c post1, post = c :: post1 ∧ c ∈ js "&#=") :
    getSlide (js "slide") (pre ++ js "slide=" ++ x ++ post) = .ok d := by
  rw [getSlide_capture pre x post (first_of_drop _ pre _ hleft) hfree hpost]
  exact captureValue_ok x d hx hd

theorem getSlide_returns_decoded_value_witness :
    getSlide (js "slide") (js "?" ++ js "slide=" ++ js "100%25" ++ []) = .ok (js "100%") ∧
    getSlide (js "slide") (js "?" ++ js "slide=" ++ js "category-theory" ++ []) =
      .ok (js "category-theory") :=
  ⟨getSlide_returns_decoded_value (js "?") (js "100%25") [] (js "100%")
      (by decide) (by decide) rfl (by decide) (Or.inl rfl),
    getSlide_returns_decoded_value (js "?") (js "category-theory") [] (js "category-theory")
      (by decide) (by decide) rfl (by decide) (Or.inl rfl)⟩

/-- C2, as stated: a query string none of whose `&`-separated pairs is named
`slide` can still make `getSlide` return something else than the default. In
`?myslide=foo` the only pair is named `myslide`, and `getSlide` returns `foo`. -/
theorem getSlide_lacking_parameter_fails :
    ¬ ∀ (q : JSString), LacksParameter (js "slide") q →
      getSlide (js "slide") q = .ok (js "monoids") := by
  intro h
  have hm := h (js "?myslide=foo") (by unfold LacksParameter; decide)
  have hf : getSlide (js "slide") (js "?myslide=foo") = .ok (js "foo") := rfl
  rw [hf] at hm
  exact absurd (Except.ok.inj hm) (by decide)

/-- C2, amended: for every query string in which the text `slide=` occurs
nowhere, `getSlide` returns the default `monoids`. -/
theorem getSlide_default_without_text (q : JSString) (h : ¬ js "slide=" <:+: q) :
    getSlide (js "slide") q = .ok (js "monoids") :=
  getSlide_absent q h

theorem getSlide_default_without_text_witness :
    ¬ js "slide=" <:+: js "?foo=bar" ∧
      getSlide (js "slide") (js "?foo=bar") = .ok (js "monoids") :=
  ⟨by decide, getSlide_default_without_text (js "?foo=bar") (by decide)⟩

/-- C3: the code at the inputs the claim names. On `?slide=%` and on
`?slide=%E0%A4` the `URIError` of `decodeURIComponent` leaves the condition of
`getSlide` and reaches the caller; the default `monoids` of the else branch is
not returned, so `getSlide` does not return a string on every query string. -/
theorem getSlide_malformed_throws :
    getSlide (js "slide") (js "?slide=%") = .error .uriError ∧
    getSlide (js "slide") (js "?slide=%E0%A4") = .error .uriError ∧
    ¬ ∀ (q : JSString), ∃ v, getSlide (js "slide") q = .ok v := by
  refine ⟨rfl, rfl, ?_⟩
  intro h
  obtain ⟨v, hv⟩ := h (js "?slide=%")
  have he : getSlide (js "slide") (js "?slide=%") = .error .uriError := rfl
  rw [he] at hv
  exact absurd hv (by simp)

/-- The extent of the exception: on every query string `getSlide` either
returns a string or throws `URIError`, and it throws exactly when the run
captured after the first `slide=` is not validly percent-encoded. -/
theorem getSlide_throws_iff_malformed (q : JSString) :
    ((∃ v, getSlide (js "slide") q = .ok v) ∨
      getSlide (js "slide") q = .error .uriError) ∧
    (getSlide (js "slide") q = .error .uriError ↔
      ∃ run, FirstCapture q run ∧ decodeURIComponent run = .error .uriError) := by
  by_cases hin : js "slide=" <:+: q
  · obtain ⟨run, hcap, hget⟩ := exists_firstCapture q hin
    cases hd : decodeURIComponent run with
    | error e =>
      have he : e = .uriError := decodeURIComponent_error run e hd
      subst he
      have hthrow : getSlide (js "slide") q = .error .uriError := by
        rw [hget]; exact captureValue_error run _ hd
      exact ⟨Or.inr hthrow, fun _ => ⟨run, hcap, hd⟩, fun _ => hthrow⟩
    | ok d =>
      have hret : ∃ v, getSlide (js "slide") q = .ok v := by
        by_cases hr : run = []
        · exact ⟨js "monoids", by rw [hget, hr]; rfl⟩
        · exact ⟨d, by rw [hget]; exact captureValue_ok run d hr hd⟩
      refine ⟨Or.inl hret, fun hthrow => ?_, fun hex => ?_⟩
      · obtain ⟨v, hv⟩ := hret
        rw [hv] at hthrow
        exact absurd hthrow (by simp)
      · obtain ⟨run1, hcap1, hd1⟩ := hex
        rw [getSlide_of_firstCapture q run1 hcap1]
        exact captureValue_error run1 _ hd1
  · have hdef := getSlide_absent q hin
    refine ⟨Or.inl ⟨_, hdef⟩, fun hthrow => ?_, fun hex => ?_⟩
    · rw [hdef] at hthrow
      exact absurd hthrow (by simp)
    · obtain ⟨run1, ⟨pre, rest, hq, _⟩, _⟩ := hex
      exact absurd ⟨pre, run1 ++ rest, by rw [hq]; simp [List.append_assoc]⟩ hin

/-- C4: when `getSlide` returns `v`, one run of the page-load handler adds
exactly one call to the calls made so far, the call of `remark.create` whose
`sourceUrl` is `slides/` followed by `v` followed by `.md`. -/
theorem onload_calls_create_once (q v : JSString) (calls : List ExternCall)
    (h : getSlide (js "slide") q = .ok v) :
    onload q calls = .ok (calls ++ [ExternCall.remarkCreate (js "slides/" ++ v ++ js ".md")]) := by
  unfold onload
  rw [h]
  rfl

theorem onload_calls_create_once_witness :
    onload (js "?slide=category-theory") [] =
      .ok ([] ++ [ExternCall.remarkCreate (js "slides/" ++ js "category-theory" ++ js ".md")]) :=
  onload_calls_create_once (js "?slide=category-theory") (js "category-theory") [] rfl

/-- C5: `getSlide` uses the first match of `slide=` and the maximal run after
it. For `q = pre ++ slide= ++ run ++ rest` in which `slide=` does not occur
further left, with `run` non-empty, validly encoded and free of `&`, `#`, `=`,
and `rest` empty or starting with one of the three, `getSlide` returns the
decoding of `run`, whatever `rest` holds. -/
theorem getSlide_first_match (pre run rest d : JSString)
    (hfirst : ∀ a b, a ++ js "slide=" ++ b = pre ++ js "slide=" ++ run ++ rest →
      pre.length ≤ a.length)
    (hrun : run ≠ []) (hd : decodeURIComponent run = .ok d)
    (hfree : ∀ c ∈ run, c ∉ js "&#=")
    (hrest : rest = [] ∨ ∃ c rest1, rest = c :: rest1 ∧ c ∈ js "&#=") :
    getSlide (js "slide") (pre ++ js "slide=" ++ run ++ rest) = .ok d := by
  rw [getSlide_capture pre run rest hfirst hfree hrest]
  exact captureValue_ok run d hrun hd

theorem getSlide_first_match_witness :
    getSlide (js "slide") (js "?" ++ js "slide=" ++ js "a" ++ js "&slide=b") = .ok (js "a") :=
  getSlide_first_match (js "?") (js "a") (js "&slide=b") (js "a")
    (first_of_drop _ (js "?") _ (by decide)) (by decide) rfl (by decide)
    (Or.inr ⟨38, js "slide=b", rfl, by decide⟩)

/-- C6: when the first occurrence of `slide=` is followed at once by the end
of the query string or by one of `&`, `#`, `=`, `getSlide` returns the default
`monoids`, whatever follows. -/
theorem getSlide_empty_value (pre rest : JSString)
    (hfirst : ∀ a b, a ++ js "slide=" ++ b = pre ++ js "slide=" ++ rest →
      pre.length ≤ a.length)
    (hrest : rest = [] ∨ ∃ c rest1, rest = c :: rest1 ∧ c ∈ js "&#=") :
    getSlide (js "slide") (pre ++ js "slide=" ++ rest) = .ok (js "monoids") := by
  have h := getSlide_capture pre [] rest (by simpa using hfirst) (by simp) hrest
  rw [List.append_nil] at h
  rw [h]
  rfl

theorem getSlide_empty_value_witness :
    getSlide (js "slide") (js "?" ++ js "slide=" ++ []) = .ok (js "monoids") ∧
    getSlide (js "slide") (js "?" ++ js "slide=" ++ js "&slide=b") = .ok (js "monoids") ∧
    onload (js "?slide=") [] = .ok [ExternCall.remarkCreate (js "slides/monoids.md")] :=
  ⟨getSlide_empty_value (js "?") [] (first_of_drop _ (js "?") _ (by decide)) (Or.inl rfl),
    getSlide_empty_value (js "?") (js "&slide=b") (first_of_drop _ (js "?") _ (by decide))
      (Or.inr ⟨38, js "slide=b", rfl, by decide⟩),
    rfl⟩

/-- C7: whenever `getSlide` returns `v`, the path handed to `createSlideShow`
is `slides/` followed by `v` followed by `.md`: it begins with `slides/`, ends
with `.md`, the name `v` between them is non-empty, and its first code unit is
not `/`. -/
theorem slide_path_shape (q v : JSString) (calls : List ExternCall)
    (h : getSlide (js "slide") q = .ok v) :
    onload q calls =
      .ok (createSlideShow (js "slides/" ++ v ++ js ".md") calls) ∧
    js "slides/" <+: js "slides/" ++ v ++ js ".md" ∧
    js ".md" <:+ js "slides/" ++ v ++ js ".md" ∧
    v ≠ [] ∧
    (js "slides/" ++ v ++ js ".md").head? ≠ some 47 := by
  refine ⟨?_, ?_, List.suffix_append _ _, getSlide_ne_nil q v h, ?_⟩
  · unfold onload
    rw [h]
  · rw [List.append_assoc]
    exact List.prefix_append _ _
  · have hs : js "slides/" = [115, 108, 105, 100, 101, 115, 47] := by decide
    rw [hs]
    simp

theorem slide_path_shape_witness :
    onload (js "?slide=100%25") [] =
      .ok (createSlideShow (js "slides/" ++ js "100%" ++ js ".md") []) ∧
    js "slides/" <+: js "slides/" ++ js "100%" ++ js ".md" ∧
    js ".md" <:+ js "slides/" ++ js "100%" ++ js ".md" ∧
    js "100%" ≠ [] ∧
    (js "slides/" ++ js "100%" ++ js ".md").head? ≠ some 47 :=
  slide_path_shape (js "?slide=100%25") (js "100%") [] rfl

/-- C8: `getSlide` is a function of its key and the query string. For every
pattern compiler, key and query string `q`, two calls made on pages with the
same `q` and any two heaps of `RegExp` objects complete alike; a call leaves
`q` as it found it; a second call made on the page the first one left behind
completes the way the first one did; and on the modelled patterns the
completion is `getSlide key q`. The object `new RegExp` allocates has no flag
and `lastIndex` 0, so `exec` starts at index 0 whatever the heap holds. -/
theorem getSlide_deterministic (compile : Compiler) (key q : JSString)
    (heap1 heap2 : List RegExpObject) :
    (getSlideRun compile key ⟨q, heap1⟩).1 = (getSlideRun compile key ⟨q, heap2⟩).1 ∧
    (getSlideRun compile key ⟨q, heap1⟩).2.locationSearch = q ∧
    (getSlideRun compile key (getSlideRun compile key ⟨q, heap1⟩).2).1 =
      (getSlideRun compile key ⟨q, heap1⟩).1 ∧
    (getSlideRun RegExp.compile key ⟨q, heap1⟩).1 = getSlide key q := by
  refine ⟨?_, getSlideRun_locationSearch compile key q heap1, ?_, ?_⟩
  · rw [getSlideRun_fst, getSlideRun_fst]
  · have hq := getSlideRun_locationSearch compile key q heap1
    have hst : (getSlideRun compile key ⟨q, heap1⟩).2 =
        ⟨q, (getSlideRun compile key ⟨q, heap1⟩).2.heap⟩ := by
      generalize (getSlideRun compile key ⟨q, heap1⟩).2 = st at hq ⊢
      cases st
      simp only at hq
      rw [hq]
    rw [hst, getSlideRun_fst, getSlideRun_fst]
  · rw [getSlideRun_fst, engineOf_compile]
    rfl

/-- C9: every capture of the search is free of `&`, `#`, `=`, but the value
`getSlide` returns is not confined to one path segment. On
`?slide=..%2F..%2Fsecret` it returns `../../secret`, which holds `/` and the
segment `..`; the path of the page-load handler is `slides/../../secret.md`,
whose directory part climbs above the directory of the page. On
`?slide=a%26b%23c%3Dd` the returned value holds `&`, `#` and `=`. -/
theorem getSlide_value_escapes_segment :
    (∀ (q : JSString) (whole : Option JSString) (capture : JSString),
      RegExp.exec ⟨js "slide=", js "&#="⟩ q = some [whole, some capture] →
        ∀ c ∈ capture, c ∉ js "&#=") ∧
    getSlide (js "slide") (js "?slide=..%2F..%2Fsecret") = .ok (js "../../secret") ∧
    47 ∈ js "../../secret" ∧
    js ".." ∈ splitAt 47 (js "../../secret") ∧
    onload (js "?slide=..%2F..%2Fsecret") [] =
      .ok [ExternCall.remarkCreate (js "slides/../../secret.md")] ∧
    splitAt 47 (js "slides/../../secret.md") =
      [js "slides", js "..", js "..", js "secret.md"] ∧
    directoryLevel (splitAt 47 (js "slides/../../secret.md")).dropLast = -1 ∧
    getSlide (js "slide") (js "?slide=a%26b%23c%3Dd") = .ok (js "a&b#c=d") ∧
    38 ∈ js "a&b#c=d" ∧ 35 ∈ js "a&b#c=d" ∧ 61 ∈ js "a&b#c=d" := by
  refine ⟨?_, rfl, by decide, by decide, rfl, by decide, by decide, rfl,
    by decide, by decide, by decide⟩
  intro q whole capture hexec c hc
  obtain ⟨tail, hm⟩ := exec_capture _ q _ hexec
  simp only [List.cons.injEq, Option.some.injEq, and_true] at hm
  rw [hm.2] at hc
  exact (not_excluded_iff c).mp
    (List.mem_takeWhile_imp (p := fun c => !(js "&#=").contains c) hc)

theorem getSlide_value_escapes_segment_witness :
    RegExp.exec ⟨js "slide=", js "&#="⟩ (js "?slide=a&b") =
      some [some (js "slide=a"), some (js "a")] ∧
    97 ∈ js "a" ∧ 97 ∉ js "&#=" :=
  ⟨rfl, by decide,
    getSlide_value_escapes_segment.1 (js "?slide=a&b") (some (js "slide=a")) (js "a") rfl
      97 (by decide)⟩

/-- C10: the third conjunct of the condition of `getSlide` is redundant. A
successful decoding of a non-empty string is non-empty, so `getSlide` equals
the variant whose condition is only `result && result[1]`, for every `RegExp`
builtin, every key and every query string. -/
theorem getSlide_third_conjunct_redundant :
    (∀ (r d : JSString), r ≠ [] → decodeURIComponent r = .ok d → d ≠ []) ∧
    (∀ (engine : RegExpEngine) (key q : JSString),
      getSlideWith engine key q = getSlideTwoConjunctsWith engine key q) ∧
    (∀ (key q : JSString), getSlide key q = getSlideTwoConjuncts key q) :=
  ⟨decodeURIComponent_ne_nil, getSlideWith_eq_twoConjuncts,
    fun key q => getSlideWith_eq_twoConjuncts RegExp.create key q⟩

theorem getSlide_third_conjunct_redundant_witness :
    js "%00" ≠ [] ∧ decodeURIComponent (js "%00") = .ok [0] ∧ ([0] : JSString) ≠ [] ∧
      getSlide (js "slide") (js "?slide=%00") = getSlideTwoConjuncts (js "slide") (js "?slide=%00") :=
  ⟨by decide, rfl, getSlide_third_conjunct_redundant.1 (js "%00") [0] (by decide) rfl,
    getSlide_third_conjunct_redundant.2.2 (js "slide") (js "?slide=%00")⟩

end SlideLoader
